import Mathlib

/-!
Shallow embedding of the core of the `inferrouter` Go library
(github.com/ineyio/inferrouter) and proofs about its claims.

Conventions of the embedding:
* Go `int64` fields are modelled as `Int`; token counts, timestamps and
  durations are `Int` (seconds); dollar amounts (`float64` in Go) are
  modelled as `ℚ`.
* Go maps (`map[string]*T`) are modelled as association lists
  `List (String × T)` with in-place replacement on update, matching Go
  map assignment semantics.
* The wall clock (`time.Now()`) is passed explicitly as a `now : Int`
  parameter to every function that reads it; `nextMidnightUTC` is
  arithmetized on integer-second time.
* `uuid.New().String()` reservation ids are opaque and never inspected
  by the library, so `Reservation` omits the `ID` field.
* Mutex acquisition is omitted: each Go method body runs under one lock,
  so a method is one atomic state transition.
-/

namespace InferRouter

deriving instance DecidableEq for Except

/-- QuotaUnit defines how quota is measured (quota.go). -/
inductive QuotaUnit where
  | tokens
  | requests
  | dollars
deriving DecidableEq

/-- HealthState describes the health of a provider account (part_013). -/
inductive HealthState where
  | healthy
  | unhealthy
  | halfOpen
deriving DecidableEq

/-- Usage represents token usage information (part_007). -/
structure Usage where
  promptTokens : Int
  completionTokens : Int
  totalTokens : Int
deriving DecidableEq

/-- Candidate represents a possible route for a request (part_013, current
version with spend fields). The `Provider` handle is represented by its
stable `Name()` string. -/
structure Candidate where
  provider : String
  accountID : String
  auth : String
  model : String
  free : Bool
  remaining : Int
  quotaUnit : QuotaUnit
  health : HealthState
  costPerToken : ℚ
  costPerInputToken : ℚ
  costPerOutputToken : ℚ
  maxDailySpend : ℚ
  currentSpend : ℚ
deriving DecidableEq

/-- BlendedCost returns an estimated cost per token for sorting
(part_013 `Candidate.BlendedCost`). -/
def Candidate.BlendedCost (c : Candidate) : ℚ :=
  if 0 < c.costPerInputToken ∨ 0 < c.costPerOutputToken then
    (c.costPerInputToken + 2 * c.costPerOutputToken) / 3
  else
    c.costPerToken

/-- Reservation represents a reserved quota allocation (quota.go); the
opaque uuid `ID` is omitted. -/
structure Reservation where
  accountID : String
  amount : Int
  unit : QuotaUnit
deriving DecidableEq

/-- Association-list lookup, modelling Go map read `m[k]`. -/
def lookupA {α : Type} : List (String × α) → String → Option α
  | [], _ => none
  | (k', v) :: m, k => if k' = k then some v else lookupA m k

/-- Association-list insert/replace, modelling Go map write `m[k] = v`. -/
def insertA {α : Type} : List (String × α) → String → α → List (String × α)
  | [], k, v => [(k, v)]
  | (k', v') :: m, k, v => if k' = k then (k, v) :: m else (k', v') :: insertA m k v

/-- AccountQuota is the in-memory per-account quota row (part_011). -/
structure AccountQuota where
  dailyLimit : Int
  used : Int
  reserved : Int
  unit : QuotaUnit
  resetAt : Int
deriving DecidableEq

/-- MemoryQuotaStore is an in-memory QuotaStore with daily reset
(part_011): an account map plus the idempotency-key dedup set `seen`. -/
structure MemoryQuotaStore where
  accounts : List (String × AccountQuota)
  seen : List String
deriving DecidableEq

/-- QuotaError models the errors Reserve can return (part_011):
`ErrQuotaExceeded` and the duplicate-idempotency-key error. -/
inductive QuotaError where
  | quotaExceeded
  | duplicateKey (k : String)
deriving DecidableEq

/-- nextMidnightUTC computes the next UTC midnight strictly after `now`
(part_011 `nextMidnightUTC`), arithmetized on integer-second time. -/
def nextMidnightUTC (now : Int) : Int :=
  86400 * (now / 86400 + 1)

/-- maybeReset performs the lazy daily reset (part_011
`MemoryQuotaStore.maybeReset`): strictly after `resetAt`, zero the
counters and move `resetAt` to the next UTC midnight. -/
def maybeReset (aq : AccountQuota) (now : Int) : AccountQuota :=
  if aq.resetAt < now then
    { aq with used := 0, reserved := 0, resetAt := nextMidnightUTC now }
  else
    aq

/-- SetQuota configures the daily quota for an account (part_011
`MemoryQuotaStore.SetQuota`): the row is replaced wholesale, so `used`
and `reserved` restart from their zero values. -/
def MemoryQuotaStore.SetQuota (s : MemoryQuotaStore) (accountID : String)
    (dailyLimit : Int) (unit : QuotaUnit) (now : Int) : MemoryQuotaStore :=
  let row : AccountQuota := ⟨dailyLimit, 0, 0, unit, nextMidnightUTC now⟩
  { s with accounts := insertA s.accounts accountID row }

/-- Reserve attempts to reserve quota (part_011
`MemoryQuotaStore.Reserve`); returns the result and the new store. -/
def MemoryQuotaStore.Reserve (s : MemoryQuotaStore) (now : Int) (accountID : String)
    (amount : Int) (unit : QuotaUnit) (idempotencyKey : String) :
    Except QuotaError Reservation × MemoryQuotaStore :=
  if idempotencyKey ≠ "" ∧ idempotencyKey ∈ s.seen then
    (.error (.duplicateKey idempotencyKey), s)
  else
    match lookupA s.accounts accountID with
    | none =>
        (.ok { accountID := accountID, amount := amount, unit := unit }, s)
    | some aq0 =>
        let aq := maybeReset aq0 now
        let available := aq.dailyLimit - aq.used - aq.reserved
        if available < amount then
          (.error .quotaExceeded,
            { s with accounts := insertA s.accounts accountID aq })
        else
          (.ok { accountID := accountID, amount := amount, unit := unit },
            { accounts := insertA s.accounts accountID
                ({ aq with reserved := aq.reserved + amount }),
              seen := if idempotencyKey ≠ "" then idempotencyKey :: s.seen else s.seen })

/-- Commit finalizes a reservation with actual usage (part_011
`MemoryQuotaStore.Commit`); always returns a nil error, so only the new
store is produced. -/
def MemoryQuotaStore.Commit (s : MemoryQuotaStore) (res : Reservation)
    (actualAmount : Int) : MemoryQuotaStore :=
  match lookupA s.accounts res.accountID with
  | none => s
  | some aq =>
      let row := { aq with reserved := aq.reserved - res.amount,
                           used := aq.used + actualAmount }
      { s with accounts := insertA s.accounts res.accountID row }

/-- Rollback releases a reservation (part_011
`MemoryQuotaStore.Rollback`). -/
def MemoryQuotaStore.Rollback (s : MemoryQuotaStore) (res : Reservation) :
    MemoryQuotaStore :=
  match lookupA s.accounts res.accountID with
  | none => s
  | some aq =>
      let row := { aq with reserved := aq.reserved - res.amount }
      { s with accounts := insertA s.accounts res.accountID row }

/-- Remaining returns the remaining free quota for an account (part_011
`MemoryQuotaStore.Remaining`); it reads the stored row as-is and does
not consult the clock. -/
def MemoryQuotaStore.Remaining (s : MemoryQuotaStore) (accountID : String) : Int :=
  match lookupA s.accounts accountID with
  | none => 0
  | some aq =>
      let available := aq.dailyLimit - aq.used - aq.reserved
      if available < 0 then 0 else available

/-- RedisStore.SetQuota models the Redis-backed `Store.SetQuota`
(part_012, lines 245-269): if the account hash does not exist, create it
with zero counters; otherwise update only `daily_limit` and `unit`,
preserving `used`, `reserved` and `reset_at`. The Redis hash for one
account is represented by the same `AccountQuota` row. -/
def RedisStore.SetQuota (accounts : List (String × AccountQuota)) (accountID : String)
    (dailyLimit : Int) (unit : QuotaUnit) (now : Int) : List (String × AccountQuota) :=
  match lookupA accounts accountID with
  | none =>
      let row : AccountQuota := ⟨dailyLimit, 0, 0, unit, nextMidnightUTC now⟩
      insertA accounts accountID row
  | some aq =>
      let row := { aq with dailyLimit := dailyLimit, unit := unit }
      insertA accounts accountID row

/-- filterCandidates removes unhealthy candidates and, when paid usage is
disallowed, paid candidates (part_000, lines 92-104). This is the filter
as written in the source: it has no `max_daily_spend` rule. -/
def filterCandidates : List Candidate → Bool → List Candidate
  | [], _ => []
  | c :: cs, allowPaid =>
      if c.health = .unhealthy then filterCandidates cs allowPaid
      else if c.free = false ∧ allowPaid = false then filterCandidates cs allowPaid
      else c :: filterCandidates cs allowPaid

/-- Modelled from the spec: the candidate filter rules of §4.4, applied
in order — drop if `health == Unhealthy`; drop if `!free && !allow_paid`;
drop if `!free && max_daily_spend > 0 && current_spend ≥ max_daily_spend`.
The third rule is absent from `filterCandidates` in the source. -/
def filterCandidatesSpec : List Candidate → Bool → List Candidate
  | [], _ => []
  | c :: cs, allowPaid =>
      if c.health = .unhealthy then filterCandidatesSpec cs allowPaid
      else if c.free = false ∧ allowPaid = false then filterCandidatesSpec cs allowPaid
      else if c.free = false ∧ 0 < c.maxDailySpend ∧ c.maxDailySpend ≤ c.currentSpend then
        filterCandidatesSpec cs allowPaid
      else c :: filterCandidatesSpec cs allowPaid

/-- HealthConfig configures circuit breaker behavior (part_010). -/
structure HealthConfig where
  failureThreshold : Nat
  failureWindow : Int
  unhealthyPeriod : Int
deriving DecidableEq

/-- DefaultHealthConfig returns the default circuit breaker settings
(part_010): 3 failures within 5 minutes, 30 second cooldown. -/
def DefaultHealthConfig : HealthConfig :=
  ⟨3, 5 * 60, 30⟩

/-- AccountHealth is the per-account circuit breaker record (part_010):
state, sliding window of failure timestamps, and the time the account
became unhealthy (0 is Go's zero time). -/
structure AccountHealth where
  state : HealthState
  failures : List Int
  unhealthyAt : Int
deriving DecidableEq

/-- HealthTracker tracks per-account health using a circuit breaker
pattern (part_010). -/
structure HealthTracker where
  cfg : HealthConfig
  accounts : List (String × AccountHealth)
deriving DecidableEq

/-- NewHealthTrackerWithConfig creates a new HealthTracker with custom
config (part_010). -/
def NewHealthTrackerWithConfig (cfg : HealthConfig) : HealthTracker :=
  ⟨cfg, []⟩

/-- GetHealth returns the current health state for an account (part_010,
lines 51-69). For an unknown account it returns Healthy without touching
the map; for a known Unhealthy account whose cooldown has elapsed it
transitions the stored record to HalfOpen. -/
def HealthTracker.GetHealth (h : HealthTracker) (now : Int) (accountID : String) :
    HealthState × HealthTracker :=
  match lookupA h.accounts accountID with
  | none => (.healthy, h)
  | some ah =>
      if ah.state = .unhealthy ∧ h.cfg.unhealthyPeriod ≤ now - ah.unhealthyAt then
        let ah' := { ah with state := .halfOpen }
        (.halfOpen, { h with accounts := insertA h.accounts accountID ah' })
      else
        (ah.state, h)

/-- getOrCreate fetches an account record, creating a fresh Healthy one
when absent (part_010 `HealthTracker.getOrCreate`). -/
def HealthTracker.getOrCreate (h : HealthTracker) (accountID : String) : AccountHealth :=
  match lookupA h.accounts accountID with
  | none => ⟨.healthy, [], 0⟩
  | some ah => ah

/-- RecordSuccess records a successful request (part_010): state becomes
Healthy and the failure window is cleared. -/
def HealthTracker.RecordSuccess (h : HealthTracker) (accountID : String) : HealthTracker :=
  let ah := h.getOrCreate accountID
  let ah' := { ah with state := .healthy, failures := [] }
  { h with accounts := insertA h.accounts accountID ah' }

/-- RecordFailure records a failed request (part_010): while Unhealthy
further failures are ignored; otherwise old failures outside the window
are pruned, the new one appended, and the threshold checked. -/
def HealthTracker.RecordFailure (h : HealthTracker) (now : Int) (accountID : String) :
    HealthTracker :=
  let ah := h.getOrCreate accountID
  if ah.state = .unhealthy then
    { h with accounts := insertA h.accounts accountID ah }
  else
    let cutoff := now - h.cfg.failureWindow
    let valid := ah.failures.filter (fun t => cutoff < t)
    let failures := valid ++ [now]
    let ah' :=
      if h.cfg.failureThreshold ≤ failures.length then
        { ah with state := .unhealthy, failures := failures, unhealthyAt := now }
      else
        { ah with failures := failures }
    { h with accounts := insertA h.accounts accountID ah' }

/-- HOp is one call against a HealthTracker, used to talk about call
sequences. -/
inductive HOp where
  | getHealth (now : Int) (accountID : String)
  | recordSuccess (accountID : String)
  | recordFailure (now : Int) (accountID : String)
deriving DecidableEq

/-- HOp.apply runs one call, keeping only the tracker state. -/
def HOp.apply (h : HealthTracker) : HOp → HealthTracker
  | .getHealth now a => (h.GetHealth now a).2
  | .recordSuccess a => h.RecordSuccess a
  | .recordFailure now a => h.RecordFailure now a

/-- applyHOps runs a sequence of HealthTracker calls in order. -/
def applyHOps (h : HealthTracker) : List HOp → HealthTracker
  | [] => h
  | op :: ops => applyHOps (op.apply h) ops

/-- HOp.records is true when the call is a RecordSuccess or RecordFailure
for the given account. -/
def HOp.records (a : String) : HOp → Bool
  | .getHealth _ _ => false
  | .recordSuccess b => b = a
  | .recordFailure _ b => b = a

/-- calculateSpend computes the dollar cost for a request (part_007
`calculateSpend`): prefer the split input/output rates, fall back to the
legacy single rate, else 0. -/
def calculateSpend (c : Candidate) (usage : Usage) : ℚ :=
  if 0 < c.costPerInputToken ∨ 0 < c.costPerOutputToken then
    usage.promptTokens * c.costPerInputToken + usage.completionTokens * c.costPerOutputToken
  else if 0 < c.costPerToken then
    usage.totalTokens * c.costPerToken
  else 0

/-- StreamErr models an error produced by a provider stream: `io.EOF`
(the normal end of stream) or any other error, carried as an opaque
code. -/
inductive StreamErr where
  | eof
  | failure (code : Nat)
deriving DecidableEq

/-- StreamResultErr is the error reported in the stream's final
OnResult event (stream.go): either the retained stream error or the
`quota operation failed: ...` wrapper around a quota-store error, whose
payload is an opaque code. -/
inductive StreamResultErr where
  | fromStream (e : StreamErr)
  | quotaOpFailed (code : Nat)
deriving DecidableEq

/-- ResultEvent describes the outcome of a provider call as reported to
the meter (part_007, current version with DollarCost); the wall-clock
`Duration` field is omitted. -/
structure ResultEvent where
  provider : String
  accountID : String
  model : String
  free : Bool
  success : Bool
  usage : Usage
  error : Option StreamResultErr
  dollarCost : ℚ
deriving DecidableEq

/-- QuotaCall records one call made against the quota store. -/
inductive QuotaCall where
  | commit (res : Reservation) (actualAmount : Int)
  | rollback (res : Reservation)
deriving DecidableEq

/-- HealthCall records one call made against the health tracker. -/
inductive HealthCall where
  | recordSuccess (accountID : String)
  | recordFailure (accountID : String)
deriving DecidableEq

/-- RouterStream is the state of the streaming wrapper (stream.go,
current version): the retained first stream error, the last usage seen,
the owned reservation and the candidate that produced the stream. The
collaborator handles (quota store, meter, health, spend) are external
effects, returned explicitly by `Close`. -/
structure RouterStream where
  reservation : Reservation
  candidate : Candidate
  totalUsage : Usage
  closed : Bool
  streamErr : Option StreamErr
deriving DecidableEq

/-- CloseEnv supplies the outcomes of the external calls `Close` makes:
the inner stream's Close error and the quota store's Commit and Rollback
errors (`none` = nil error), as opaque codes. -/
structure CloseEnv where
  innerCloseErr : Option Nat
  commitErr : Option Nat
  rollbackErr : Option Nat
deriving DecidableEq

/-- CloseOutput is everything `Close` produces: its return value, the
meter events emitted, the quota-store and health-tracker calls made, the
spend recorded, and the successor stream state. -/
structure CloseOutput where
  ret : Option Nat
  events : List ResultEvent
  quotaCalls : List QuotaCall
  healthCalls : List HealthCall
  spendRecorded : List (String × ℚ)
  state : RouterStream
deriving DecidableEq

/-- Close releases the stream and commits quota (stream.go, lines
45-96). A second call is a no-op returning nil. On the first call:
success iff the retained stream error is nil or io.EOF; on success
Commit the last-seen usage total (1 when the unit is requests), record
health success and any dollar spend; on failure Rollback and record a
health failure; emit exactly one OnResult whose success flag also
requires the quota call to have succeeded; return the inner Close
error. -/
def streamSuccess (streamErr : Option StreamErr) : Prop :=
  streamErr = none ∨ streamErr = some .eof

instance (e : Option StreamErr) : Decidable (streamSuccess e) := by
  unfold streamSuccess
  infer_instance

/-- Close is the state transition of stream.go's `RouterStream.Close`;
also see the preceding comment block (shared with `streamSuccess`, which
is the code's `isSuccess` condition `streamErr == nil or io.EOF`). -/
def RouterStream.Close (s : RouterStream) (env : CloseEnv) : CloseOutput :=
  if s.closed then
    ⟨none, [], [], [], [], s⟩
  else
    let s' := { s with closed := true }
    let err := env.innerCloseErr
    let actualTokens :=
      if s.candidate.quotaUnit = .requests then 1 else s.totalUsage.totalTokens
    let quotaErr := if streamSuccess s.streamErr then env.commitErr else env.rollbackErr
    let quotaCalls :=
      if streamSuccess s.streamErr then [QuotaCall.commit s.reservation actualTokens]
      else [QuotaCall.rollback s.reservation]
    let healthCalls :=
      if streamSuccess s.streamErr then [HealthCall.recordSuccess s.candidate.accountID]
      else [HealthCall.recordFailure s.candidate.accountID]
    let dollarCost :=
      if streamSuccess s.streamErr then calculateSpend s.candidate s.totalUsage else 0
    let spendRecorded :=
      if streamSuccess s.streamErr ∧ 0 < dollarCost then
        [(s.candidate.accountID, dollarCost)]
      else []
    let resultErr :=
      match quotaErr, s.streamErr with
      | some q, none => some (StreamResultErr.quotaOpFailed q)
      | some q, some .eof => some (StreamResultErr.quotaOpFailed q)
      | _, none => none
      | _, some e => some (StreamResultErr.fromStream e)
    let event : ResultEvent :=
      { provider := s.candidate.provider
        accountID := s.candidate.accountID
        model := s.candidate.model
        free := s.candidate.free
        success := decide (streamSuccess s.streamErr ∧ quotaErr = none)
        usage := s.totalUsage
        error := resultErr
        dollarCost := dollarCost }
    ⟨err, [event], quotaCalls, healthCalls, spendRecorded, s'⟩

/-- RouteErr models the sentinel error kinds of errors.go; `other` stands
for any error outside the taxonomy. -/
inductive RouteErr where
  | noCandidates
  | noFreeQuota
  | quotaExceeded
  | rateLimited
  | authFailed
  | invalidRequest
  | providerUnavailable
  | modelNotFound
  | allFailed
  | other (code : Nat)
deriving DecidableEq

/-- IsFatal returns true if the error should not be retried with another
candidate (errors.go): authentication failure or invalid request. -/
def IsFatal (err : RouteErr) : Bool :=
  decide (err = .authFailed ∨ err = .invalidRequest)

/-- IsRetryable returns true if the error can be retried with another
candidate (errors.go). -/
def IsRetryable (err : RouteErr) : Bool :=
  decide (err = .rateLimited ∨ err = .providerUnavailable ∨ err = .quotaExceeded)

/-- ProviderResponse is the response from a provider adapter (part_007). -/
structure ProviderResponse where
  id : String
  content : String
  finishReason : String
  usage : Usage
  model : String
deriving DecidableEq

/-- RoutingInfo describes which provider/account served the request
(part_007). -/
structure RoutingInfo where
  provider : String
  accountID : String
  model : String
  attempts : Nat
  free : Bool
deriving DecidableEq

/-- ChatResponse is the router's response (part_007), flattened to its
single choice at index 0. -/
structure ChatResponse where
  id : String
  model : String
  content : String
  finishReason : String
  usage : Usage
  routing : RoutingInfo
deriving DecidableEq

/-- RouterError wraps an error with routing context (errors.go). -/
structure RouterError where
  err : RouteErr
  provider : String
  accountID : String
  model : String
  attempts : Nat
deriving DecidableEq

/-- RouterOutcome is the overall result of `Router.ChatCompletion`. -/
inductive RouterOutcome where
  | ok (resp : ChatResponse)
  | routerErr (e : RouterError)
  | noCandidates
deriving DecidableEq

/-- AttemptOutcome is the environment's answer for one candidate in the
attempt loop: the quota store's Reserve fails, or the provider call
fails, or the provider call succeeds with a response. -/
inductive AttemptOutcome where
  | reserveFail (e : RouteErr)
  | provFail (e : RouteErr)
  | success (resp : ProviderResponse)
deriving DecidableEq

/-- AttemptOutcome.continues is true when the code's loop moves on to
the next candidate on this outcome: a Reserve failure or a non-fatal
provider error. -/
def AttemptOutcome.continues : AttemptOutcome → Bool
  | .reserveFail _ => true
  | .provFail e => !(IsFatal e)
  | .success _ => false

/-- attemptLoop embeds the attempt loop of `Router.ChatCompletion`
(router.go, lines 112-221). `total` is `len(ordered)`, `idx` the 0-based
`attempt` counter, and the `Option RouteErr` is `lastErr`. The second
component of the result lists the (0-based) positions whose provider was
actually invoked; a Reserve failure invokes no provider. -/
def attemptLoop (total : Nat) :
    List (Candidate × AttemptOutcome) → Nat → Option RouteErr → RouterOutcome × List Nat
  | [], _, lastErr =>
      match lastErr with
      | some _ => (.routerErr ⟨.allFailed, "", "", "", total⟩, [])
      | none => (.noCandidates, [])
  | (c, o) :: rest, idx, _ =>
      match o with
      | .reserveFail e => attemptLoop total rest (idx + 1) (some e)
      | .provFail e =>
          if IsFatal e then
            (.routerErr ⟨e, c.provider, c.accountID, c.model, idx + 1⟩, [idx])
          else
            let r := attemptLoop total rest (idx + 1) (some e)
            (r.1, idx :: r.2)
      | .success resp =>
          (.ok { id := resp.id, model := resp.model, content := resp.content,
                 finishReason := resp.finishReason, usage := resp.usage,
                 routing := ⟨c.provider, c.accountID, c.model, idx + 1, c.free⟩ },
           [idx])

/-- Router.ChatCompletion restricted to its attempt loop: the ordered
candidate list is paired with each candidate's attempt outcome. -/
def Router.ChatCompletion (ordered : List (Candidate × AttemptOutcome)) :
    RouterOutcome × List Nat :=
  attemptLoop ordered.length ordered 0 none

/-- stableInsert places `x` after every element strictly less than it
(by the comparator), before the first that is not. -/
def stableInsert {α : Type} (lt : α → α → Bool) (x : α) : List α → List α
  | [] => [x]
  | y :: ys => if lt y x then y :: stableInsert lt x ys else x :: y :: ys

/-- sliceStable models Go's `sort.SliceStable`: a stable sort with
respect to a strict-weak-order `less` comparator, realized as a stable
insertion sort. -/
def sliceStable {α : Type} (lt : α → α → Bool) : List α → List α
  | [] => []
  | x :: xs => stableInsert lt x (sliceStable lt xs)

/-- ffLess is the `less` closure of `FreeFirstPolicy.Select`
(policy/free_first.go, lines 20-35): free before paid; among free, more
remaining first; among paid, cheaper blended cost first. -/
def ffLess (ci cj : Candidate) : Bool :=
  if ci.free ≠ cj.free then ci.free
  else if ci.free then decide (cj.remaining < ci.remaining)
  else decide (ci.BlendedCost < cj.BlendedCost)

/-- Select orders candidates: free first (most remaining), then paid
(cheapest) (policy/free_first.go `FreeFirstPolicy.Select`). -/
def FreeFirstPolicy.Select (candidates : List Candidate) : List Candidate :=
  sliceStable ffLess candidates

/-- RemainingSpec: modelled from the spec — `Remaining(account_id)`
returns `max(0, daily_limit - used - reserved)` "with lazy-read daily
reset", i.e. a call at or past `reset_at_utc` observes
`used = 0, reserved = 0`. The source's `MemoryQuotaStore.Remaining`
never consults the clock, so this definition exists to compare against
it. -/
def MemoryQuotaStore.RemainingSpec (s : MemoryQuotaStore) (now : Int)
    (accountID : String) : Int :=
  match lookupA s.accounts accountID with
  | none => 0
  | some aq =>
      if aq.resetAt ≤ now then max 0 aq.dailyLimit
      else max 0 (aq.dailyLimit - aq.used - aq.reserved)

/-- QOp is one call against the in-memory quota store, used to talk
about call sequences. -/
inductive QOp where
  | reserve (now : Int) (accountID : String) (amount : Int) (unit : QuotaUnit) (key : String)
  | commit (res : Reservation) (actualAmount : Int)
  | rollback (res : Reservation)
  | setQuota (accountID : String) (dailyLimit : Int) (unit : QuotaUnit) (now : Int)
deriving DecidableEq

/-- QOp.apply runs one call, keeping only the store state. -/
def QOp.apply (s : MemoryQuotaStore) : QOp → MemoryQuotaStore
  | .reserve now a amount u k => (s.Reserve now a amount u k).2
  | .commit res actual => s.Commit res actual
  | .rollback res => s.Rollback res
  | .setQuota a limit u now => s.SetQuota a limit u now

/-- applyQOps runs a sequence of quota-store calls in order. -/
def applyQOps (s : MemoryQuotaStore) : List QOp → MemoryQuotaStore
  | [] => s
  | op :: ops => applyQOps (op.apply s) ops

/-- QOp.isReserveNonneg is true for a Reserve call with a nonnegative
amount. -/
def QOp.isReserveNonneg : QOp → Bool
  | .reserve _ _ amount _ _ => decide (0 ≤ amount)
  | _ => false

/-- reserve1Seq issues one `Reserve(a, 1, u, k)` per key in order,
collecting the results, all at the same instant `now`. -/
def reserve1Seq (now : Int) (a : String) (u : QuotaUnit) :
    MemoryQuotaStore → List String → List (Except QuotaError Reservation)
  | _, [] => []
  | s, k :: ks =>
      let r := s.Reserve now a 1 u k
      r.1 :: reserve1Seq now a u r.2 ks

/-- freshKeys checks that each key in the list is either empty or not
previously seen, where every nonempty key is conservatively added to the
seen set for the rest of the list. -/
def freshKeys : List String → List String → Bool
  | _, [] => true
  | seen, k :: ks =>
      if k = "" then freshKeys seen ks
      else (!(decide (k ∈ seen))) && freshKeys (k :: seen) ks

/-- QuotaInv is the AccountQuotaRow invariant of the spec's data model:
`used ≥ 0`, `reserved ≥ 0`, `used + reserved ≤ daily_limit`. -/
def QuotaInv (aq : AccountQuota) : Prop :=
  0 ≤ aq.used ∧ 0 ≤ aq.reserved ∧ aq.used + aq.reserved ≤ aq.dailyLimit

/-- StoreInv says every configured row of the store satisfies
`QuotaInv`. -/
def StoreInv (s : MemoryQuotaStore) : Prop :=
  ∀ a aq, lookupA s.accounts a = some aq → QuotaInv aq

/-- spendCapCandidate is a healthy paid candidate whose current daily
spend (3 cents) is past its spend ceiling (1 cent), mirroring the
`TestMaxDailySpend_Enforcement` setup of part_008. -/
def spendCapCandidate : Candidate :=
  { provider := "mock", accountID := "paid-1", auth := "", model := "test-model",
    free := false, remaining := 0, quotaUnit := .tokens, health := .healthy,
    costPerToken := 1/1000, costPerInputToken := 0, costPerOutputToken := 0,
    maxDailySpend := 1/100, currentSpend := 3/100 }

/-- candFree is a free candidate used as concrete input. -/
def candFree : Candidate :=
  { provider := "p1", accountID := "a1", auth := "", model := "m", free := true,
    remaining := 10, quotaUnit := .tokens, health := .healthy, costPerToken := 0,
    costPerInputToken := 0, costPerOutputToken := 0, maxDailySpend := 0,
    currentSpend := 0 }

/-- candPaid is a paid candidate used as concrete input. -/
def candPaid : Candidate :=
  { provider := "p2", accountID := "a2", auth := "", model := "m", free := false,
    remaining := 0, quotaUnit := .tokens, health := .healthy, costPerToken := 1/1000,
    costPerInputToken := 0, costPerOutputToken := 0, maxDailySpend := 0,
    currentSpend := 0 }

/-- ffTie says two candidates compare equal under the FreeFirstPolicy
comparator: same free flag and, within the free group the same
remaining, within the paid group the same blended cost. -/
def ffTie (c0 c : Candidate) : Bool :=
  c0.free == c.free &&
    (if c0.free then c0.remaining == c.remaining
     else decide (c0.BlendedCost = c.BlendedCost))

/-- usedQuotaRow is a quota row mid-day: limit 10, 5 already used, 2
reserved. -/
def usedQuotaRow : AccountQuota := ⟨10, 5, 2, .tokens, 100⟩

/-- usedQuotaStore is an in-memory store holding `usedQuotaRow` for
account `acct1`. -/
def usedQuotaStore : MemoryQuotaStore := ⟨[("acct1", usedQuotaRow)], []⟩

/-- staleQuotaStore holds for `acct1` a row whose reset time (100) is in
the past relative to the probe instant 200, with 5 tokens used. -/
def staleQuotaStore : MemoryQuotaStore := ⟨[("acct1", ⟨10, 5, 0, .tokens, 100⟩)], []⟩

theorem lookupA_insertA_self {α : Type} (m : List (String × α)) (k : String) (v : α) :
    lookupA (insertA m k v) k = some v := by
  induction m with
  | nil => simp [insertA, lookupA]
  | cons p m ih =>
    obtain ⟨k', v'⟩ := p
    by_cases h : k' = k
    · simp [insertA, lookupA, h]
    · simp [insertA, lookupA, h, ih]

theorem lookupA_insertA_ne {α : Type} (m : List (String × α)) (k k' : String) (v : α)
    (h : k' ≠ k) : lookupA (insertA m k v) k' = lookupA m k' := by
  have hk : ¬k = k' := fun hkk => h hkk.symm
  induction m with
  | nil => simp [insertA, lookupA, hk]
  | cons p m ih =>
    obtain ⟨k0, v0⟩ := p
    by_cases h0 : k0 = k
    · subst h0
      simp [insertA, lookupA, hk]
    · by_cases h1 : k0 = k'
      · simp [insertA, lookupA, h0, h1, h]
      · simp [insertA, lookupA, h0, h1, ih]

/-- C4: the claim says the candidate filter drops every non-free
candidate with `max_daily_spend > 0` and `current_spend ≥
max_daily_spend`. The source's `filterCandidates` (part_000) has no such
rule: a healthy paid candidate past its spend ceiling is kept with
`allow_paid = true`, while the spec's filter (and the repository's own
`TestMaxDailySpend_Enforcement` test) drop it. -/
theorem C4_filter_lacks_spend_ceiling :
    filterCandidates [spendCapCandidate] true = [spendCapCandidate] ∧
    filterCandidatesSpec [spendCapCandidate] true = [] ∧
    spendCapCandidate.health ≠ .unhealthy ∧
    spendCapCandidate.free = false ∧
    0 < spendCapCandidate.maxDailySpend ∧
    spendCapCandidate.maxDailySpend ≤ spendCapCandidate.currentSpend := by
  refine ⟨?_, ?_, ?_, ?_, ?_, ?_⟩ <;>
    norm_num [filterCandidates, filterCandidatesSpec, spendCapCandidate] <;> decide

/-- C9: the claim says `SetQuota` on an existing row updates
`daily_limit` and `unit` while leaving `used` and `reserved` unchanged.
The Redis store's `SetQuota` (part_012) does exactly that, but
`MemoryQuotaStore.SetQuota` (part_011) replaces the whole row, resetting
`used` from 5 to 0 and `reserved` from 2 to 0. -/
theorem C9_memory_setquota_resets_usage :
    lookupA (usedQuotaStore.SetQuota "acct1" 100 .tokens 50).accounts "acct1" =
      some ⟨100, 0, 0, .tokens, 86400⟩ ∧
    lookupA (RedisStore.SetQuota [("acct1", usedQuotaRow)] "acct1" 100 .tokens 50) "acct1" =
      some ⟨100, 5, 2, .tokens, 100⟩ ∧
    usedQuotaRow.used = 5 ∧ usedQuotaRow.reserved = 2 ∧
    (0 : Int) ≠ 5 := by
  refine ⟨?_, ?_, rfl, rfl, by decide⟩ <;>
    simp [usedQuotaStore, usedQuotaRow, MemoryQuotaStore.SetQuota, RedisStore.SetQuota,
      lookupA, insertA, nextMidnightUTC]

/-- C6 counterexample: the claim says `MemoryQuotaStore.Remaining`
applies a lazy-read daily reset, observing `used = 0, reserved = 0` when
called at or past the row's `reset_at`. At time 200 (past the row's
reset time 100) the source's `Remaining` still reports 10 - 5 = 5, while
the claimed behavior would report the full limit 10. -/
theorem C6_remaining_ignores_reset_counterexample :
    staleQuotaStore.Remaining "acct1" = 5 ∧
    staleQuotaStore.RemainingSpec 200 "acct1" = 10 ∧
    (100 : Int) ≤ 200 ∧
    (5 : Int) ≠ 10 := by
  refine ⟨?_, ?_, by decide, by decide⟩ <;>
    simp [staleQuotaStore, MemoryQuotaStore.Remaining, MemoryQuotaStore.RemainingSpec,
      lookupA]

/-- C6 (amended): `MemoryQuotaStore.Remaining` returns
`max(0, daily_limit - used - reserved)` for a configured account and 0
for an unconfigured one, reading the stored row as-is with no daily
reset; the reset that zeroes `used` and `reserved` is applied only by
`Reserve` through `maybeReset`. -/
theorem C6_remaining_amended :
    (∀ (s : MemoryQuotaStore) (a : String) (aq : AccountQuota),
      lookupA s.accounts a = some aq →
      s.Remaining a = max 0 (aq.dailyLimit - aq.used - aq.reserved)) ∧
    (∀ (s : MemoryQuotaStore) (a : String),
      lookupA s.accounts a = none → s.Remaining a = 0) ∧
    (∀ (aq : AccountQuota) (now : Int), aq.resetAt < now →
      maybeReset aq now = ⟨aq.dailyLimit, 0, 0, aq.unit, nextMidnightUTC now⟩) := by
  refine ⟨?_, ?_, ?_⟩
  · intro s a aq h
    simp only [MemoryQuotaStore.Remaining, h]
    omega
  · intro s a h
    simp only [MemoryQuotaStore.Remaining, h]
  · intro aq now h
    simp [maybeReset, h]

/-- C6 witness: the amended statement evaluated on `staleQuotaStore`. -/
theorem C6_remaining_amended_witness :
    lookupA staleQuotaStore.accounts "acct1" = some ⟨10, 5, 0, .tokens, 100⟩ ∧
    staleQuotaStore.Remaining "acct1" = max 0 (10 - 5 - 0) := by
  have h : lookupA staleQuotaStore.accounts "acct1" = some ⟨10, 5, 0, .tokens, 100⟩ := by
    simp [staleQuotaStore, lookupA]
  exact ⟨h, C6_remaining_amended.1 staleQuotaStore "acct1" ⟨10, 5, 0, .tokens, 100⟩ h⟩

theorem HOp.apply_absent (h : HealthTracker) (a : String) (op : HOp)
    (h0 : lookupA h.accounts a = none) (hop : op.records a = false) :
    lookupA (op.apply h).accounts a = none := by
  cases op with
  | getHealth now b =>
      simp only [HOp.apply, HealthTracker.GetHealth]
      cases hb : lookupA h.accounts b with
      | none => simpa [hb] using h0
      | some ah =>
          have hba : b ≠ a := by
            intro hba
            rw [hba, h0] at hb
            exact Option.noConfusion hb
          simp only [hb]
          split
          · dsimp only
            rw [lookupA_insertA_ne _ _ _ _ (fun hab => hba hab.symm)]
            exact h0
          · exact h0
  | recordSuccess b =>
      have hba : b ≠ a := by simpa [HOp.records] using hop
      simp only [HOp.apply, HealthTracker.RecordSuccess]
      rw [lookupA_insertA_ne _ _ _ _ (fun hab => hba hab.symm)]
      exact h0
  | recordFailure now b =>
      have hba : b ≠ a := by simpa [HOp.records] using hop
      simp only [HOp.apply, HealthTracker.RecordFailure]
      by_cases hst : (h.getOrCreate b).state = HealthState.unhealthy
      · simp only [hst, if_true]
        rw [lookupA_insertA_ne _ _ _ _ (fun hab => hba hab.symm)]
        exact h0
      · simp only [hst, if_false]
        rw [lookupA_insertA_ne _ _ _ _ (fun hab => hba hab.symm)]
        exact h0

theorem applyHOps_absent (a : String) (ops : List HOp) :
    ∀ (h : HealthTracker), lookupA h.accounts a = none →
    (∀ op ∈ ops, op.records a = false) →
    lookupA (applyHOps h ops).accounts a = none := by
  induction ops with
  | nil => intro h h0 _; simpa [applyHOps] using h0
  | cons op ops ih =>
      intro h h0 hops
      simp only [applyHOps]
      exact ih (op.apply h)
        (HOp.apply_absent h a op h0 (hops op (List.mem_cons_self op ops)))
        (fun op' hop' => hops op' (List.mem_cons_of_mem op hop'))

/-- C10: `HealthTracker.GetHealth` returns Healthy for every account on
which neither `RecordSuccess` nor `RecordFailure` was ever called, and
the read creates no record: starting from a fresh tracker and running
any call sequence that never records for account `a`, the tracker holds
no record for `a`, `GetHealth` answers Healthy leaving the tracker
unchanged, and a subsequent single `RecordFailure` finds an empty
failure window (the resulting record's window is exactly the one new
timestamp). -/
theorem C10_gethealth_untracked (cfg : HealthConfig) (ops : List HOp) (a : String)
    (now now2 : Int) (hops : ∀ op ∈ ops, op.records a = false) :
    lookupA (applyHOps (NewHealthTrackerWithConfig cfg) ops).accounts a = none ∧
    (applyHOps (NewHealthTrackerWithConfig cfg) ops).GetHealth now a =
      (.healthy, applyHOps (NewHealthTrackerWithConfig cfg) ops) ∧
    (lookupA ((applyHOps (NewHealthTrackerWithConfig cfg) ops).RecordFailure now2 a).accounts a).map
      AccountHealth.failures = some [now2] := by
  have h0 : lookupA (applyHOps (NewHealthTrackerWithConfig cfg) ops).accounts a = none :=
    applyHOps_absent a ops (NewHealthTrackerWithConfig cfg) (by simp [NewHealthTrackerWithConfig, lookupA]) hops
  refine ⟨h0, ?_, ?_⟩
  · simp [HealthTracker.GetHealth, h0]
  · simp only [HealthTracker.RecordFailure, HealthTracker.getOrCreate, h0]
    rw [if_neg (by decide : ¬(HealthState.healthy = HealthState.unhealthy))]
    dsimp only
    rw [lookupA_insertA_self]
    dsimp only [Option.map]
    split <;> rfl

/-- C10 witness: two unrelated calls (a failure for another account and
a read of `acct1`) leave `acct1` untracked; evaluated at the default
circuit-breaker config. -/
theorem C10_gethealth_untracked_witness :
    (∀ op ∈ ([HOp.recordFailure 1 "other", HOp.getHealth 2 "acct1"] : List HOp),
      op.records "acct1" = false) ∧
    (lookupA (applyHOps (NewHealthTrackerWithConfig DefaultHealthConfig)
        [HOp.recordFailure 1 "other", HOp.getHealth 2 "acct1"]).accounts "acct1" = none ∧
      (applyHOps (NewHealthTrackerWithConfig DefaultHealthConfig)
        [HOp.recordFailure 1 "other", HOp.getHealth 2 "acct1"]).GetHealth 3 "acct1" =
        (.healthy, applyHOps (NewHealthTrackerWithConfig DefaultHealthConfig)
          [HOp.recordFailure 1 "other", HOp.getHealth 2 "acct1"]) ∧
      (lookupA ((applyHOps (NewHealthTrackerWithConfig DefaultHealthConfig)
          [HOp.recordFailure 1 "other", HOp.getHealth 2 "acct1"]).RecordFailure 4 "acct1").accounts
        "acct1").map AccountHealth.failures = some [4]) :=
  ⟨by decide, C10_gethealth_untracked DefaultHealthConfig
    [HOp.recordFailure 1 "other", HOp.getHealth 2 "acct1"] "acct1" 3 4 (by decide)⟩

/-- C7: for a configured account with no other activity (and no daily
reset firing during the call, `now ≤ reset_at`), a successful
`Reserve(a, x, k)` followed by `Rollback` of the returned reservation
leaves `Remaining(a)` exactly as it was before the Reserve. -/
theorem C7_reserve_rollback_identity (s : MemoryQuotaStore) (now : Int) (a : String)
    (x : Int) (u : QuotaUnit) (k : String) (aq : AccountQuota) (r : Reservation)
    (s1 : MemoryQuotaStore)
    (hconf : lookupA s.accounts a = some aq)
    (hday : now ≤ aq.resetAt)
    (hres : s.Reserve now a x u k = (.ok r, s1)) :
    (s1.Rollback r).Remaining a = s.Remaining a := by
  by_cases hdup : k ≠ "" ∧ k ∈ s.seen
  · simp only [MemoryQuotaStore.Reserve, if_pos hdup] at hres
    exact absurd (congrArg Prod.fst hres) (by simp)
  · have hnr : ¬(aq.resetAt < now) := not_lt.mpr hday
    simp only [MemoryQuotaStore.Reserve, if_neg hdup, hconf, maybeReset, if_neg hnr] at hres
    by_cases hav : aq.dailyLimit - aq.used - aq.reserved < x
    · rw [if_pos hav] at hres
      exact absurd (congrArg Prod.fst hres) (by simp)
    · rw [if_neg hav] at hres
      rw [Prod.mk.injEq] at hres
      obtain ⟨h1, h2⟩ := hres
      injection h1 with h1
      subst h1
      subst h2
      simp only [MemoryQuotaStore.Rollback, lookupA_insertA_self]
      simp only [MemoryQuotaStore.Remaining, lookupA_insertA_self, hconf]
      have hx : aq.reserved + x - x = aq.reserved := by ring
      simp [hx]

/-- C7 witness: reserving 3 tokens from a fresh limit-10 row and rolling
back leaves Remaining at 10. -/
theorem C7_reserve_rollback_identity_witness :
    lookupA (⟨[("acct1", ⟨10, 0, 0, .tokens, 86400⟩)], []⟩ : MemoryQuotaStore).accounts
      "acct1" = some ⟨10, 0, 0, .tokens, 86400⟩ ∧
    (5 : Int) ≤ 86400 ∧
    (⟨[("acct1", ⟨10, 0, 0, .tokens, 86400⟩)], []⟩ : MemoryQuotaStore).Reserve 5 "acct1" 3
      .tokens "key1" =
      (.ok ⟨"acct1", 3, .tokens⟩,
        ⟨[("acct1", ⟨10, 0, 3, .tokens, 86400⟩)], ["key1"]⟩) ∧
    (((⟨[("acct1", ⟨10, 0, 3, .tokens, 86400⟩)], ["key1"]⟩ : MemoryQuotaStore).Rollback
        ⟨"acct1", 3, .tokens⟩).Remaining "acct1" =
      (⟨[("acct1", ⟨10, 0, 0, .tokens, 86400⟩)], []⟩ : MemoryQuotaStore).Remaining "acct1") := by
  refine ⟨by decide, by decide, by decide, ?_⟩
  exact C7_reserve_rollback_identity
    ⟨[("acct1", ⟨10, 0, 0, .tokens, 86400⟩)], []⟩ 5 "acct1" 3 .tokens "key1"
    ⟨10, 0, 0, .tokens, 86400⟩ ⟨"acct1", 3, .tokens⟩
    ⟨[("acct1", ⟨10, 0, 3, .tokens, 86400⟩)], ["key1"]⟩
    (by decide) (by decide) (by decide)

theorem Reserve_seen_cases (s : MemoryQuotaStore) (now : Int) (a : String) (x : Int)
    (u : QuotaUnit) (k : String) :
    (s.Reserve now a x u k).2.seen = s.seen ∨
    (s.Reserve now a x u k).2.seen = k :: s.seen := by
  simp only [MemoryQuotaStore.Reserve]
  split
  · exact Or.inl rfl
  · split
    · exact Or.inl rfl
    · split
      · exact Or.inl rfl
      · by_cases hkey : k ≠ ""
        · exact Or.inr (by simp [hkey])
        · exact Or.inl (by simp [hkey])

theorem QOp.apply_seen_mono (s : MemoryQuotaStore) (op : QOp) (k : String)
    (h : k ∈ s.seen) : k ∈ (op.apply s).seen := by
  cases op with
  | reserve now a x u key =>
      rcases Reserve_seen_cases s now a x u key with hs | hs
      · simpa [QOp.apply, hs] using h
      · simp only [QOp.apply, hs]
        exact List.mem_cons_of_mem _ h
  | commit res actual =>
      simp only [QOp.apply, MemoryQuotaStore.Commit]
      split <;> exact h
  | rollback res =>
      simp only [QOp.apply, MemoryQuotaStore.Rollback]
      split <;> exact h
  | setQuota a limit u now => exact h

theorem applyQOps_seen_mono (k : String) (ops : List QOp) :
    ∀ (s : MemoryQuotaStore), k ∈ s.seen → k ∈ (applyQOps s ops).seen := by
  induction ops with
  | nil => intro s h; simpa [applyQOps] using h
  | cons op ops ih =>
      intro s h
      simp only [applyQOps]
      exact ih (op.apply s) (QOp.apply_seen_mono s op k h)

theorem Reserve_dup_of_seen (s : MemoryQuotaStore) (now : Int) (a : String) (x : Int)
    (u : QuotaUnit) (k : String) (hk : k ≠ "") (hmem : k ∈ s.seen) :
    (s.Reserve now a x u k).1 = .error (.duplicateKey k) := by
  simp [MemoryQuotaStore.Reserve, hk, hmem]

theorem Reserve_ok_mem_seen (s : MemoryQuotaStore) (now : Int) (a : String) (x : Int)
    (u : QuotaUnit) (k : String) (aq : AccountQuota) (r : Reservation)
    (s1 : MemoryQuotaStore) (hk : k ≠ "")
    (hconf : lookupA s.accounts a = some aq)
    (hres : s.Reserve now a x u k = (.ok r, s1)) : k ∈ s1.seen := by
  by_cases hdup : k ≠ "" ∧ k ∈ s.seen
  · simp only [MemoryQuotaStore.Reserve, if_pos hdup] at hres
    exact absurd (congrArg Prod.fst hres) (by simp)
  · simp only [MemoryQuotaStore.Reserve, if_neg hdup, hconf] at hres
    split at hres
    · exact absurd (congrArg Prod.fst hres) (by simp)
    · have hs1 := congrArg Prod.snd hres
      simp only at hs1
      rw [← hs1]
      simp [hk]

theorem Reserve_not_dup_of_not_seen (s : MemoryQuotaStore) (now : Int) (a : String)
    (x : Int) (u : QuotaUnit) (k : String) (hmem : k ∉ s.seen) :
    (s.Reserve now a x u k).1 ≠ .error (.duplicateKey k) := by
  simp only [MemoryQuotaStore.Reserve]
  split
  · next hdup => exact absurd hdup.2 hmem
  · split
    · simp
    · split
      · simp
      · simp

theorem Reserve_quotaExceeded_seen (s : MemoryQuotaStore) (now : Int) (a : String)
    (x : Int) (u : QuotaUnit) (k : String)
    (hqe : (s.Reserve now a x u k).1 = .error .quotaExceeded) :
    (s.Reserve now a x u k).2.seen = s.seen := by
  by_cases hdup : k ≠ "" ∧ k ∈ s.seen
  · simp [MemoryQuotaStore.Reserve, hdup]
  · cases hconf : lookupA s.accounts a with
    | none => simp [MemoryQuotaStore.Reserve, hdup, hconf]
    | some aq =>
        by_cases hav : (maybeReset aq now).dailyLimit - (maybeReset aq now).used -
            (maybeReset aq now).reserved < x
        · simp [MemoryQuotaStore.Reserve, hdup, hconf, hav]
        · simp [MemoryQuotaStore.Reserve, hdup, hconf, hav] at hqe

/-- C3 counterexample: the claim says at most one of two Reserves with
the same non-empty idempotency key against the same account succeeds.
Against an account with no configured quota row the source returns the
synthetic "unlimited" reservation before recording the key, so both
calls succeed. -/
theorem C3_unconfigured_dedup_counterexample :
    ((⟨[], []⟩ : MemoryQuotaStore).Reserve 0 "acct1" 1 .tokens "key1").1 =
      .ok ⟨"acct1", 1, .tokens⟩ ∧
    (((⟨[], []⟩ : MemoryQuotaStore).Reserve 0 "acct1" 1 .tokens "key1").2.Reserve 0
        "acct1" 1 .tokens "key1").1 = .ok ⟨"acct1", 1, .tokens⟩ ∧
    "key1" ≠ "" := by
  refine ⟨by decide, by decide, by decide⟩

/-- C3 (amended): for the in-memory QuotaStore, when the two Reserve
calls target an account with a configured quota row, at most one
succeeds — if the first succeeds with a non-empty key, every later
Reserve presenting that key (after any interleaved store activity) fails
with the duplicate-key error. For an unconfigured account the synthetic
success does not record the key. Unchanged from the claim: a Reserve
that fails with QuotaExceeded leaves the idempotency set exactly as it
was, so a later Reserve with the same (previously unseen) key is not
rejected as a duplicate. -/
theorem C3_idempotency_dedup_amended :
    (∀ (s : MemoryQuotaStore) (now : Int) (a : String) (x : Int) (u : QuotaUnit)
      (k : String) (aq : AccountQuota) (r : Reservation) (s1 : MemoryQuotaStore),
      k ≠ "" → lookupA s.accounts a = some aq →
      s.Reserve now a x u k = (.ok r, s1) →
      ∀ (ops : List QOp) (now' : Int) (a' : String) (x' : Int) (u' : QuotaUnit),
        ((applyQOps s1 ops).Reserve now' a' x' u' k).1 = .error (.duplicateKey k)) ∧
    (∀ (s : MemoryQuotaStore) (now : Int) (a : String) (x : Int) (u : QuotaUnit)
      (k : String),
      (s.Reserve now a x u k).1 = .error .quotaExceeded →
      (s.Reserve now a x u k).2.seen = s.seen) ∧
    (∀ (s : MemoryQuotaStore) (now : Int) (a : String) (x : Int) (u : QuotaUnit)
      (k : String) (now' : Int) (a' : String) (x' : Int) (u' : QuotaUnit),
      k ∉ s.seen →
      (s.Reserve now a x u k).1 = .error .quotaExceeded →
      ((s.Reserve now a x u k).2.Reserve now' a' x' u' k).1 ≠
        .error (.duplicateKey k)) := by
  refine ⟨?_, ?_, ?_⟩
  · intro s now a x u k aq r s1 hk hconf hres ops now' a' x' u'
    exact Reserve_dup_of_seen _ now' a' x' u' k hk
      (applyQOps_seen_mono k ops s1 (Reserve_ok_mem_seen s now a x u k aq r s1 hk hconf hres))
  · intro s now a x u k hqe
    exact Reserve_quotaExceeded_seen s now a x u k hqe
  · intro s now a x u k now' a' x' u' hmem hqe
    apply Reserve_not_dup_of_not_seen
    rw [Reserve_quotaExceeded_seen s now a x u k hqe]
    exact hmem

/-- C3 witness: the amended statement at a configured limit-10 row — the
first Reserve succeeds and the repeat (after an interleaved commit)
fails with the duplicate-key error; a quota-exceeded Reserve leaves the
seen set unchanged and is not later rejected as a duplicate. -/
theorem C3_idempotency_dedup_amended_witness :
    ("key1" ≠ "" ∧
      lookupA (⟨[("acct1", ⟨10, 0, 0, .tokens, 86400⟩)], []⟩ : MemoryQuotaStore).accounts
        "acct1" = some ⟨10, 0, 0, .tokens, 86400⟩ ∧
      (⟨[("acct1", ⟨10, 0, 0, .tokens, 86400⟩)], []⟩ : MemoryQuotaStore).Reserve 5 "acct1"
        3 .tokens "key1" =
        (.ok ⟨"acct1", 3, .tokens⟩,
          ⟨[("acct1", ⟨10, 0, 3, .tokens, 86400⟩)], ["key1"]⟩)) ∧
    ((applyQOps (⟨[("acct1", ⟨10, 0, 3, .tokens, 86400⟩)], ["key1"]⟩ : MemoryQuotaStore)
        [QOp.commit ⟨"acct1", 3, .tokens⟩ 3]).Reserve 6 "acct1" 1 .tokens "key1").1 =
      .error (.duplicateKey "key1") := by
  refine ⟨⟨by decide, by decide, by decide⟩, ?_⟩
  exact C3_idempotency_dedup_amended.1
    ⟨[("acct1", ⟨10, 0, 0, .tokens, 86400⟩)], []⟩ 5 "acct1" 3 .tokens "key1"
    ⟨10, 0, 0, .tokens, 86400⟩ ⟨"acct1", 3, .tokens⟩
    ⟨[("acct1", ⟨10, 0, 3, .tokens, 86400⟩)], ["key1"]⟩
    (by decide) (by decide) (by decide)
    [QOp.commit ⟨"acct1", 3, .tokens⟩ 3] 6 "acct1" 1 .tokens

theorem QuotaInv_maybeReset (aq : AccountQuota) (now : Int) (h : QuotaInv aq) :
    QuotaInv (maybeReset aq now) := by
  unfold QuotaInv at h ⊢
  unfold maybeReset
  split
  · simp only
    omega
  · exact h

theorem StoreInv_reserve (s : MemoryQuotaStore) (now : Int) (a : String) (x : Int)
    (u : QuotaUnit) (k : String) (hinv : StoreInv s) (hx : 0 ≤ x) :
    StoreInv (s.Reserve now a x u k).2 := by
  by_cases hdup : k ≠ "" ∧ k ∈ s.seen
  · simpa [MemoryQuotaStore.Reserve, hdup] using hinv
  · cases hconf : lookupA s.accounts a with
    | none => simpa [MemoryQuotaStore.Reserve, hdup, hconf] using hinv
    | some aq =>
        have hrinv : QuotaInv (maybeReset aq now) :=
          QuotaInv_maybeReset aq now (hinv a aq hconf)
        by_cases hav : (maybeReset aq now).dailyLimit - (maybeReset aq now).used -
            (maybeReset aq now).reserved < x
        · simp only [MemoryQuotaStore.Reserve, if_neg hdup, hconf, if_pos hav]
          intro b bq hb
          simp only at hb
          by_cases hba : b = a
          · subst hba
            rw [lookupA_insertA_self] at hb
            cases hb
            exact hrinv
          · rw [lookupA_insertA_ne _ _ _ _ hba] at hb
            exact hinv b bq hb
        · simp only [MemoryQuotaStore.Reserve, if_neg hdup, hconf, if_neg hav]
          intro b bq hb
          simp only at hb
          by_cases hba : b = a
          · subst hba
            rw [lookupA_insertA_self] at hb
            cases hb
            unfold QuotaInv at hrinv ⊢
            simp only
            omega
          · rw [lookupA_insertA_ne _ _ _ _ hba] at hb
            exact hinv b bq hb

theorem StoreInv_applyQOps (ops : List QOp) :
    ∀ (s : MemoryQuotaStore), StoreInv s →
    (∀ op ∈ ops, op.isReserveNonneg = true) →
    StoreInv (applyQOps s ops) := by
  induction ops with
  | nil => intro s hinv _; simpa [applyQOps] using hinv
  | cons op ops ih =>
      intro s hinv hops
      have hop : op.isReserveNonneg = true := hops op (List.mem_cons_self op ops)
      have hstep : StoreInv (op.apply s) := by
        cases op with
        | reserve now a x u k =>
            have hx : 0 ≤ x := by simpa [QOp.isReserveNonneg] using hop
            exact StoreInv_reserve s now a x u k hinv hx
        | commit res actual => exact absurd hop (by simp [QOp.isReserveNonneg])
        | rollback res => exact absurd hop (by simp [QOp.isReserveNonneg])
        | setQuota a limit u now => exact absurd hop (by simp [QOp.isReserveNonneg])
      simp only [applyQOps]
      exact ih (op.apply s) hstep (fun op' hop' => hops op' (List.mem_cons_of_mem op hop'))

theorem freshKeys_anti (ks : List String) :
    ∀ (seen1 seen2 : List String), seen1 ⊆ seen2 →
    freshKeys seen2 ks = true → freshKeys seen1 ks = true := by
  induction ks with
  | nil => intro seen1 seen2 _ _; rfl
  | cons k ks ih =>
      intro seen1 seen2 hsub hf
      by_cases hk : k = ""
      · simp only [freshKeys, if_pos hk] at hf ⊢
        exact ih seen1 seen2 hsub hf
      · simp only [freshKeys, if_neg hk, Bool.and_eq_true, Bool.not_eq_true',
          decide_eq_false_iff_not] at hf ⊢
        exact ⟨fun hmem => hf.1 (hsub hmem),
          ih (k :: seen1) (k :: seen2) (List.cons_subset_cons k hsub) hf.2⟩

theorem reserve1Seq_exact (now : Int) (a : String) (u : QuotaUnit) (ks : List String) :
    ∀ (s : MemoryQuotaStore) (L used res R : Int) (uq : QuotaUnit) (A : Nat),
    lookupA s.accounts a = some ⟨L, used, res, uq, R⟩ →
    L - used - res = (A : Int) →
    now ≤ R →
    freshKeys s.seen ks = true →
    reserve1Seq now a u s ks =
      List.replicate (min ks.length A) (.ok ⟨a, 1, u⟩) ++
      List.replicate (ks.length - A) (.error .quotaExceeded) := by
  induction ks with
  | nil =>
      intro s L used res R uq A _ _ _ _
      simp [reserve1Seq]
  | cons k ks ih =>
      intro s L used res R uq A hconf hA hday hfresh
      have hnr : ¬(R < now) := not_lt.mpr hday
      have hreset : maybeReset ⟨L, used, res, uq, R⟩ now = ⟨L, used, res, uq, R⟩ := by
        simp [maybeReset, hnr]
      have hkfresh : (k = "" ∧ freshKeys s.seen ks = true) ∨
          (k ≠ "" ∧ k ∉ s.seen ∧ freshKeys (k :: s.seen) ks = true) := by
        by_cases hk : k = ""
        · simp only [freshKeys, if_pos hk] at hfresh
          exact Or.inl ⟨hk, hfresh⟩
        · simp only [freshKeys, if_neg hk, Bool.and_eq_true, Bool.not_eq_true',
            decide_eq_false_iff_not] at hfresh
          exact Or.inr ⟨hk, hfresh.1, hfresh.2⟩
      have hdup : ¬(k ≠ "" ∧ k ∈ s.seen) := by
        rcases hkfresh with ⟨hk, _⟩ | ⟨_, hmem, _⟩
        · exact fun hc => hc.1 hk
        · exact fun hc => hmem hc.2
      cases A with
      | zero =>
          have hav : L - used - res < 1 := by omega
          have hfresh' : freshKeys s.seen ks = true := by
            rcases hkfresh with ⟨_, hf⟩ | ⟨_, _, hf⟩
            · exact hf
            · exact freshKeys_anti ks s.seen (k :: s.seen)
                (List.subset_cons_self k s.seen) hf
          simp only [reserve1Seq, MemoryQuotaStore.Reserve, if_neg hdup, hconf, hreset]
          rw [if_pos hav]
          rw [ih ⟨insertA s.accounts a ⟨L, used, res, uq, R⟩, s.seen⟩ L used res R uq 0
            (lookupA_insertA_self _ _ _) hA hday hfresh']
          simp [List.replicate_succ]
      | succ A' =>
          have hav : ¬(L - used - res < 1) := by omega
          have hA' : L - used - (res + 1) = (A' : Int) := by
            push_cast at hA ⊢
            omega
          simp only [reserve1Seq, MemoryQuotaStore.Reserve, if_neg hdup, hconf, hreset]
          rw [if_neg hav]
          rcases hkfresh with ⟨hk, hf⟩ | ⟨hk, hmem, hf⟩
          · rw [if_neg (show ¬(k ≠ "") by simp [hk])]
            rw [ih ⟨insertA s.accounts a ⟨L, used, res + 1, uq, R⟩, s.seen⟩ L used
              (res + 1) R uq A' (lookupA_insertA_self _ _ _) hA' hday hf]
            simp [List.replicate_succ, Nat.succ_min_succ]
          · rw [if_pos hk]
            rw [ih ⟨insertA s.accounts a ⟨L, used, res + 1, uq, R⟩, k :: s.seen⟩ L used
              (res + 1) R uq A' (lookupA_insertA_self _ _ _) hA' hday hf]
            simp [List.replicate_succ, Nat.succ_min_succ]

theorem countP_replicate {α : Type} (p : α → Bool) (n : Nat) (x : α) :
    (List.replicate n x).countP p = if p x then n else 0 := by
  induction n with
  | zero => simp
  | succ n ih =>
      rw [List.replicate_succ, List.countP_cons]
      by_cases hp : p x <;> simp [hp, ih]

/-- C1: every quota row of the in-memory store keeps the invariant
`used ≥ 0 ∧ reserved ≥ 0 ∧ used + reserved ≤ daily_limit` across any
sequence of Reserve calls with nonnegative amounts; and for any sequence
of `Reserve(a, 1)` calls (fresh or empty idempotency keys, no
intervening Commit/Rollback, all before the row's reset time) against an
account configured with limit `N` and nothing yet used or reserved, the
first `N` calls succeed and every further one fails with QuotaExceeded,
so exactly `min(count, N)` succeed. -/
theorem C1_reserve_invariant_and_exact_count :
    (∀ (s : MemoryQuotaStore) (ops : List QOp),
      StoreInv s → (∀ op ∈ ops, op.isReserveNonneg = true) →
      StoreInv (applyQOps s ops)) ∧
    (∀ (s : MemoryQuotaStore) (now R : Int) (a : String) (u uq : QuotaUnit)
      (N : Nat) (ks : List String),
      lookupA s.accounts a = some ⟨(N : Int), 0, 0, uq, R⟩ →
      now ≤ R →
      freshKeys s.seen ks = true →
      reserve1Seq now a u s ks =
        List.replicate (min ks.length N) (.ok ⟨a, 1, u⟩) ++
        List.replicate (ks.length - N) (.error .quotaExceeded) ∧
      (reserve1Seq now a u s ks).countP Except.isOk = min ks.length N) := by
  constructor
  · exact fun s ops hinv hops => StoreInv_applyQOps ops s hinv hops
  · intro s now R a u uq N ks hconf hday hfresh
    have heq := reserve1Seq_exact now a u ks s (N : Int) 0 0 R uq N hconf
      (by omega) hday hfresh
    refine ⟨heq, ?_⟩
    rw [heq, List.countP_append, countP_replicate, countP_replicate]
    simp [Except.isOk, Except.toBool]

/-- C1 witness: a fresh limit-2 row and three Reserve(1) calls with
distinct keys — the first two succeed, the third fails with
QuotaExceeded; the invariant part runs on the same three calls. -/
theorem C1_reserve_invariant_and_exact_count_witness :
    (StoreInv (⟨[("acct1", ⟨2, 0, 0, .requests, 86400⟩)], []⟩ : MemoryQuotaStore) ∧
      (∀ op ∈ ([QOp.reserve 5 "acct1" 1 .requests "k1",
                 QOp.reserve 5 "acct1" 1 .requests "k2",
                 QOp.reserve 5 "acct1" 1 .requests "k3"] : List QOp),
        op.isReserveNonneg = true) ∧
      StoreInv (applyQOps (⟨[("acct1", ⟨2, 0, 0, .requests, 86400⟩)], []⟩ : MemoryQuotaStore)
        [QOp.reserve 5 "acct1" 1 .requests "k1", QOp.reserve 5 "acct1" 1 .requests "k2",
         QOp.reserve 5 "acct1" 1 .requests "k3"])) ∧
    (lookupA (⟨[("acct1", ⟨2, 0, 0, .requests, 86400⟩)], []⟩ : MemoryQuotaStore).accounts
        "acct1" = some ⟨((2 : Nat) : Int), 0, 0, .requests, 86400⟩ ∧
      (5 : Int) ≤ 86400 ∧
      freshKeys [] ["k1", "k2", "k3"] = true ∧
      reserve1Seq 5 "acct1" .requests
          (⟨[("acct1", ⟨2, 0, 0, .requests, 86400⟩)], []⟩ : MemoryQuotaStore)
          ["k1", "k2", "k3"] =
        List.replicate (min 3 2) (.ok ⟨"acct1", 1, .requests⟩) ++
        List.replicate (3 - 2) (.error .quotaExceeded)) := by
  have hinv : StoreInv (⟨[("acct1", ⟨2, 0, 0, .requests, 86400⟩)], []⟩ : MemoryQuotaStore) := by
    intro b bq hb
    simp only [lookupA] at hb
    by_cases hba : "acct1" = b
    · rw [if_pos hba] at hb
      cases hb
      exact ⟨by decide, by decide, by decide⟩
    · rw [if_neg hba] at hb
      exact absurd hb (by simp [lookupA])
  refine ⟨⟨hinv, by decide, ?_⟩, ?_, by decide, by decide, ?_⟩
  · exact C1_reserve_invariant_and_exact_count.1 _ _ hinv (by decide)
  · decide
  · exact (C1_reserve_invariant_and_exact_count.2
      (⟨[("acct1", ⟨2, 0, 0, .requests, 86400⟩)], []⟩ : MemoryQuotaStore) 5 86400 "acct1"
      .requests .requests 2 ["k1", "k2", "k3"] (by decide) (by decide) (by decide)).1

theorem attemptLoop_fatal (total : Nat) :
    ∀ (pre : List (Candidate × AttemptOutcome)) (c : Candidate) (e : RouteErr)
      (rest : List (Candidate × AttemptOutcome)) (idx : Nat) (last : Option RouteErr),
      (∀ x ∈ pre, x.2.continues = true) → IsFatal e = true →
      (attemptLoop total (pre ++ (c, .provFail e) :: rest) idx last).1 =
        .routerErr ⟨e, c.provider, c.accountID, c.model, idx + pre.length + 1⟩ ∧
      ∀ i ∈ (attemptLoop total (pre ++ (c, .provFail e) :: rest) idx last).2,
        i ≤ idx + pre.length := by
  intro pre
  induction pre with
  | nil =>
      intro c e rest idx last _ hfatal
      simp only [List.nil_append, attemptLoop, hfatal, if_pos]
      refine ⟨by simp, ?_⟩
      intro i hi
      simp only [List.mem_singleton] at hi
      omega
  | cons x pre ih =>
      intro c e rest idx last hcont hfatal
      have hx : x.2.continues = true := hcont x (List.mem_cons_self x pre)
      have hpre : ∀ y ∈ pre, y.2.continues = true :=
        fun y hy => hcont y (List.mem_cons_of_mem x hy)
      obtain ⟨cx, ox⟩ := x
      have h2 := fun e' => ih c e rest (idx + 1) (some e') hpre hfatal
      cases ox with
      | reserveFail e' =>
          have h3 := h2 e'
          have harith : idx + 1 + pre.length + 1 = idx + (pre.length + 1) + 1 := by omega
          rw [harith] at h3
          simp only [List.cons_append, attemptLoop, List.length_cons]
          refine ⟨h3.1, ?_⟩
          intro i hi
          have := h3.2 i hi
          omega
      | provFail e' =>
          have h3 := h2 e'
          have harith : idx + 1 + pre.length + 1 = idx + (pre.length + 1) + 1 := by omega
          rw [harith] at h3
          have hnf : IsFatal e' = false := by
            simpa [AttemptOutcome.continues] using hx
          simp only [List.cons_append, attemptLoop, hnf, Bool.false_eq_true, if_false,
            List.length_cons]
          refine ⟨h3.1, ?_⟩
          intro i hi
          simp only [List.mem_cons] at hi
          rcases hi with hi | hi
          · omega
          · have := h3.2 i hi
            omega
      | success resp =>
          exact absurd hx (by simp [AttemptOutcome.continues])

theorem attemptLoop_allFailed (total : Nat) :
    ∀ (l : List (Candidate × AttemptOutcome)) (idx : Nat) (e0 : RouteErr),
      (∀ x ∈ l, x.2.continues = true) →
      (attemptLoop total l idx (some e0)).1 = .routerErr ⟨.allFailed, "", "", "", total⟩ := by
  intro l
  induction l with
  | nil => intro idx e0 _; simp [attemptLoop]
  | cons x l ih =>
      intro idx e0 hcont
      have hx : x.2.continues = true := hcont x (List.mem_cons_self x l)
      have hl : ∀ y ∈ l, y.2.continues = true :=
        fun y hy => hcont y (List.mem_cons_of_mem x hy)
      obtain ⟨cx, ox⟩ := x
      cases ox with
      | reserveFail e' => simpa [attemptLoop] using ih (idx + 1) e' hl
      | provFail e' =>
          have hnf : IsFatal e' = false := by
            simpa [AttemptOutcome.continues] using hx
          simp only [attemptLoop, hnf, Bool.false_eq_true, if_false]
          exact ih (idx + 1) e' hl
      | success resp =>
          exact absurd hx (by simp [AttemptOutcome.continues])

/-- C2: in the attempt loop of `Router.ChatCompletion` — (1) a fatal
provider error (AuthFailed or InvalidRequest) at 1-based attempt `i`
(here: after `pre.length` continuing attempts) returns immediately a
RouterError wrapping that error with `Attempts = i`, and no provider at
a later position is invoked; (2) a Reserve failure passes straight to
the next candidate, and so does (3) a non-fatal provider error; (4) a
loop that ends without success returns `AllFailed` with
`Attempts = len(ordered)` when at least one attempt ran, and
NoCandidates on an empty list. -/
theorem C2_attempt_loop :
    (∀ (pre : List (Candidate × AttemptOutcome)) (c : Candidate) (e : RouteErr)
      (rest : List (Candidate × AttemptOutcome)),
      (∀ x ∈ pre, x.2.continues = true) → IsFatal e = true →
      (Router.ChatCompletion (pre ++ (c, .provFail e) :: rest)).1 =
        .routerErr ⟨e, c.provider, c.accountID, c.model, pre.length + 1⟩ ∧
      ∀ i ∈ (Router.ChatCompletion (pre ++ (c, .provFail e) :: rest)).2,
        i < pre.length + 1) ∧
    (∀ (total : Nat) (c : Candidate) (e : RouteErr)
      (rest : List (Candidate × AttemptOutcome)) (idx : Nat) (last : Option RouteErr),
      attemptLoop total ((c, .reserveFail e) :: rest) idx last =
        attemptLoop total rest (idx + 1) (some e)) ∧
    (∀ (total : Nat) (c : Candidate) (e : RouteErr)
      (rest : List (Candidate × AttemptOutcome)) (idx : Nat) (last : Option RouteErr),
      IsFatal e = false →
      (attemptLoop total ((c, .provFail e) :: rest) idx last).1 =
        (attemptLoop total rest (idx + 1) (some e)).1) ∧
    (∀ (l : List (Candidate × AttemptOutcome)), l ≠ [] →
      (∀ x ∈ l, x.2.continues = true) →
      (Router.ChatCompletion l).1 = .routerErr ⟨.allFailed, "", "", "", l.length⟩) ∧
    Router.ChatCompletion [] = (.noCandidates, []) := by
  refine ⟨?_, ?_, ?_, ?_, by simp [Router.ChatCompletion, attemptLoop]⟩
  · intro pre c e rest hcont hfatal
    have h := attemptLoop_fatal (pre ++ (c, .provFail e) :: rest).length pre c e rest 0
      none hcont hfatal
    have h1 := h.1
    rw [Nat.zero_add] at h1
    exact ⟨h1, fun i hi => by have := h.2 i hi; omega⟩
  · intro total c e rest idx last
    simp [attemptLoop]
  · intro total c e rest idx last hnf
    simp [attemptLoop, hnf]
  · intro l hne hcont
    obtain ⟨x, xs, rfl⟩ : ∃ x xs, l = x :: xs := by
      cases l with
      | nil => exact absurd rfl hne
      | cons x xs => exact ⟨x, xs, rfl⟩
    have hx : x.2.continues = true := hcont x (List.mem_cons_self x xs)
    have hxs : ∀ y ∈ xs, y.2.continues = true :=
      fun y hy => hcont y (List.mem_cons_of_mem x hy)
    obtain ⟨cx, ox⟩ := x
    cases ox with
    | reserveFail e' =>
        simp only [Router.ChatCompletion, attemptLoop]
        exact attemptLoop_allFailed _ xs 1 e' hxs
    | provFail e' =>
        have hnf : IsFatal e' = false := by
          simpa [AttemptOutcome.continues] using hx
        simp only [Router.ChatCompletion, attemptLoop, hnf, Bool.false_eq_true, if_false]
        exact attemptLoop_allFailed _ xs 1 e' hxs
    | success resp =>
        exact absurd hx (by simp [AttemptOutcome.continues])

/-- C2 witness: one Reserve-failing candidate followed by a fatally
failing one — the loop stops with AuthFailed wrapped at Attempts = 2 and
no position beyond the second is invoked. -/
theorem C2_attempt_loop_witness :
    ((∀ x ∈ ([(candFree, AttemptOutcome.reserveFail .quotaExceeded)] :
        List (Candidate × AttemptOutcome)), x.2.continues = true) ∧
      IsFatal .authFailed = true) ∧
    ((Router.ChatCompletion [(candFree, AttemptOutcome.reserveFail .quotaExceeded),
        (candPaid, AttemptOutcome.provFail .authFailed)]).1 =
      .routerErr ⟨.authFailed, "p2", "a2", "m", 2⟩ ∧
      ∀ i ∈ (Router.ChatCompletion [(candFree, AttemptOutcome.reserveFail .quotaExceeded),
        (candPaid, AttemptOutcome.provFail .authFailed)]).2, i < 2) :=
  ⟨⟨by decide, by decide⟩,
    C2_attempt_loop.1 [(candFree, AttemptOutcome.reserveFail .quotaExceeded)] candPaid
      .authFailed [] (by decide) (by decide)⟩

/-- C5: `RouterStream.Close` — (1) on an already-closed stream it is a
no-op returning nil (and the first call marks the stream closed, so
every later call is such a no-op); (2) on the first call it returns the
inner stream's Close error, emits exactly one OnResult event, Commits
the reservation with the last-seen usage total (1 when the quota unit is
requests) exactly when the retained stream error is nil or end-of-stream
and otherwise Rolls the reservation back; (3) when the stream succeeded
and the Commit succeeds the event reports success; (4) when the Commit
itself fails the single event has success = false and a
"quota operation failed" error, while the returned value still is the
inner Close error. -/
theorem C5_stream_close :
    (∀ (s : RouterStream) (env : CloseEnv), s.closed = true →
      s.Close env = ⟨none, [], [], [], [], s⟩) ∧
    (∀ (s : RouterStream) (env : CloseEnv), (s.Close env).state.closed = true) ∧
    (∀ (s : RouterStream) (env : CloseEnv), s.closed = false →
      (s.Close env).ret = env.innerCloseErr ∧
      (s.Close env).events.length = 1 ∧
      (streamSuccess s.streamErr →
        (s.Close env).quotaCalls = [QuotaCall.commit s.reservation
          (if s.candidate.quotaUnit = .requests then 1 else s.totalUsage.totalTokens)]) ∧
      (¬streamSuccess s.streamErr →
        (s.Close env).quotaCalls = [QuotaCall.rollback s.reservation])) ∧
    (∀ (s : RouterStream) (env : CloseEnv), s.closed = false →
      streamSuccess s.streamErr → env.commitErr = none →
      ((s.Close env).events.map ResultEvent.success = [true])) ∧
    (∀ (s : RouterStream) (env : CloseEnv) (q : Nat), s.closed = false →
      streamSuccess s.streamErr → env.commitErr = some q →
      (s.Close env).events.map ResultEvent.success = [false] ∧
      (s.Close env).events.map ResultEvent.error = [some (StreamResultErr.quotaOpFailed q)] ∧
      (s.Close env).ret = env.innerCloseErr) := by
  refine ⟨?_, ?_, ?_, ?_, ?_⟩
  · intro s env hclosed
    simp [RouterStream.Close, hclosed]
  · intro s env
    by_cases hclosed : s.closed
    · simp [RouterStream.Close, hclosed]
    · simp [RouterStream.Close, hclosed]
  · intro s env hclosed
    by_cases hsucc : streamSuccess s.streamErr
    · refine ⟨?_, ?_, fun _ => ?_, fun hn => absurd hsucc hn⟩ <;>
        simp [RouterStream.Close, hclosed, hsucc]
    · refine ⟨?_, ?_, fun hy => absurd hy hsucc, fun _ => ?_⟩ <;>
        simp [RouterStream.Close, hclosed, hsucc]
  · intro s env hclosed hsucc hcommit
    simp [RouterStream.Close, hclosed, hsucc, hcommit]
  · intro s env q hclosed hsucc hcommit
    rcases hsucc with hnil | heof
    · refine ⟨?_, ?_, ?_⟩ <;>
        simp [RouterStream.Close, hclosed, hnil, hcommit, streamSuccess]
    · refine ⟨?_, ?_, ?_⟩ <;>
        simp [RouterStream.Close, hclosed, heof, hcommit, streamSuccess]

/-- C5 witness: a stream that ended with io.EOF at 7 total tokens whose
Commit fails with error code 9 — Close returns the inner error (none),
emits one event with success = false and the quota-failure error, and
the quota call was a Commit of 7. -/
theorem C5_stream_close_witness :
    ((⟨⟨"a1", 30, .tokens⟩, candFree, ⟨5, 2, 7⟩, true, some .eof⟩ : RouterStream).closed =
        true ∧
      (⟨⟨"a1", 30, .tokens⟩, candFree, ⟨5, 2, 7⟩, true, some .eof⟩ : RouterStream).Close
        ⟨none, some 9, none⟩ =
        ⟨none, [], [], [], [],
          ⟨⟨"a1", 30, .tokens⟩, candFree, ⟨5, 2, 7⟩, true, some .eof⟩⟩) ∧
    ((⟨⟨"a1", 30, .tokens⟩, candFree, ⟨5, 2, 7⟩, false, some .eof⟩ : RouterStream).closed =
        false ∧
      streamSuccess (some StreamErr.eof) ∧
      ((⟨⟨"a1", 30, .tokens⟩, candFree, ⟨5, 2, 7⟩, false, some .eof⟩ :
          RouterStream).Close ⟨none, some 9, none⟩).events.map ResultEvent.success =
        [false] ∧
      ((⟨⟨"a1", 30, .tokens⟩, candFree, ⟨5, 2, 7⟩, false, some .eof⟩ :
          RouterStream).Close ⟨none, some 9, none⟩).events.map ResultEvent.error =
        [some (StreamResultErr.quotaOpFailed 9)] ∧
      ((⟨⟨"a1", 30, .tokens⟩, candFree, ⟨5, 2, 7⟩, false, some .eof⟩ :
          RouterStream).Close ⟨none, some 9, none⟩).ret = none ∧
      ((⟨⟨"a1", 30, .tokens⟩, candFree, ⟨5, 2, 7⟩, false, some .eof⟩ :
          RouterStream).Close ⟨none, some 9, none⟩).quotaCalls =
        [QuotaCall.commit ⟨"a1", 30, .tokens⟩ 7]) := by
  have h1 := C5_stream_close.1
    (⟨⟨"a1", 30, .tokens⟩, candFree, ⟨5, 2, 7⟩, true, some .eof⟩ : RouterStream)
    ⟨none, some 9, none⟩ rfl
  have h5 := (C5_stream_close.2.2.2.2
    (⟨⟨"a1", 30, .tokens⟩, candFree, ⟨5, 2, 7⟩, false, some .eof⟩ : RouterStream)
    ⟨none, some 9, none⟩ 9 rfl (Or.inr rfl) rfl)
  have h3 := ((C5_stream_close.2.2.1
    (⟨⟨"a1", 30, .tokens⟩, candFree, ⟨5, 2, 7⟩, false, some .eof⟩ : RouterStream)
    ⟨none, some 9, none⟩ rfl).2.2.1 (Or.inr rfl))
  exact ⟨⟨rfl, h1⟩, rfl, Or.inr rfl, h5.1, h5.2.1, h5.2.2, by simpa using h3⟩

theorem stableInsert_perm {α : Type} (lt : α → α → Bool) (x : α) (ys : List α) :
    (stableInsert lt x ys).Perm (x :: ys) := by
  induction ys with
  | nil => simp [stableInsert]
  | cons y ys ih =>
      simp only [stableInsert]
      by_cases h : lt y x = true
      · rw [if_pos h]
        exact (ih.cons y).trans (List.Perm.swap x y ys)
      · rw [if_neg h]

theorem sliceStable_perm {α : Type} (lt : α → α → Bool) (l : List α) :
    (sliceStable lt l).Perm l := by
  induction l with
  | nil => simp [sliceStable]
  | cons x xs ih =>
      simp only [sliceStable]
      exact (stableInsert_perm lt x (sliceStable lt xs)).trans (ih.cons x)

theorem stableInsert_pairwise {α : Type} (lt : α → α → Bool)
    (hasym : ∀ a b, lt a b = true → lt b a = false)
    (hneg : ∀ a b c, lt b a = false → lt c b = false → lt c a = false)
    (x : α) (ys : List α) (hys : ys.Pairwise (fun a b => lt b a = false)) :
    (stableInsert lt x ys).Pairwise (fun a b => lt b a = false) := by
  induction ys with
  | nil => simp [stableInsert]
  | cons y ys ih =>
      obtain ⟨hy, hys'⟩ := List.pairwise_cons.mp hys
      simp only [stableInsert]
      by_cases h : lt y x = true
      · rw [if_pos h]
        refine List.pairwise_cons.mpr ⟨?_, ih hys'⟩
        intro z hz
        have hz' : z ∈ x :: ys := (stableInsert_perm lt x ys).mem_iff.mp hz
        rcases List.mem_cons.mp hz' with hz1 | hz1
        · rw [hz1]
          exact hasym y x h
        · exact hy z hz1
      · rw [if_neg h]
        refine List.pairwise_cons.mpr ⟨?_, hys⟩
        intro z hz
        rcases List.mem_cons.mp hz with hz | hz
        · subst hz
          exact Bool.not_eq_true _ ▸ h
        · exact hneg x y z (Bool.not_eq_true _ ▸ h) (hy z hz)

theorem sliceStable_pairwise {α : Type} (lt : α → α → Bool)
    (hasym : ∀ a b, lt a b = true → lt b a = false)
    (hneg : ∀ a b c, lt b a = false → lt c b = false → lt c a = false)
    (l : List α) :
    (sliceStable lt l).Pairwise (fun a b => lt b a = false) := by
  induction l with
  | nil => simp [sliceStable]
  | cons x xs ih =>
      simp only [sliceStable]
      exact stableInsert_pairwise lt hasym hneg x (sliceStable lt xs) ih

theorem filter_stableInsert_pos {α : Type} (lt : α → α → Bool) (p : α → Bool) (x : α)
    (ys : List α) (hx : p x = true) (hcut : ∀ y, lt y x = true → p y = false) :
    (stableInsert lt x ys).filter p = x :: ys.filter p := by
  induction ys with
  | nil => simp [stableInsert, hx]
  | cons y ys ih =>
      simp only [stableInsert]
      by_cases h : lt y x = true
      · rw [if_pos h]
        simp [List.filter_cons, hcut y h, ih]
      · rw [if_neg h]
        simp [List.filter_cons, hx]

theorem filter_stableInsert_neg {α : Type} (lt : α → α → Bool) (p : α → Bool) (x : α)
    (ys : List α) (hx : p x = false) :
    (stableInsert lt x ys).filter p = ys.filter p := by
  induction ys with
  | nil => simp [stableInsert, hx]
  | cons y ys ih =>
      simp only [stableInsert]
      by_cases h : lt y x = true
      · rw [if_pos h]
        simp [List.filter_cons, ih]
      · rw [if_neg h]
        simp [List.filter_cons, hx]

theorem sliceStable_filter {α : Type} (lt : α → α → Bool) (p : α → Bool)
    (hp : ∀ x y, p x = true → p y = true → lt y x = false) (l : List α) :
    (sliceStable lt l).filter p = l.filter p := by
  induction l with
  | nil => simp [sliceStable]
  | cons x xs ih =>
      simp only [sliceStable]
      by_cases hx : p x = true
      · have hcut : ∀ y, lt y x = true → p y = false := by
          intro y hlt
          by_cases hpy : p y = true
          · exact absurd hlt (by simp [hp x y hx hpy])
          · exact Bool.not_eq_true _ ▸ hpy
        rw [filter_stableInsert_pos lt p x _ hx hcut, ih]
        simp [List.filter_cons, hx]
      · have hx' : p x = false := Bool.not_eq_true _ ▸ hx
        rw [filter_stableInsert_neg lt p x _ hx', ih]
        simp [List.filter_cons, hx']

theorem ffLess_asym (a b : Candidate) (h : ffLess a b = true) : ffLess b a = false := by
  cases haf : a.free <;> cases hbf : b.free <;>
    simp only [ffLess, haf, hbf] at h ⊢ <;>
    simp_all <;> first | omega | linarith

theorem ffLess_negtrans (a b c : Candidate) (h1 : ffLess b a = false)
    (h2 : ffLess c b = false) : ffLess c a = false := by
  cases haf : a.free <;> cases hbf : b.free <;> cases hcf : c.free <;>
    simp only [ffLess, haf, hbf, hcf] at h1 h2 ⊢ <;>
    simp_all <;> first | omega | linarith

theorem ffTie_less (c0 x y : Candidate) (hx : ffTie c0 x = true)
    (hy : ffTie c0 y = true) : ffLess y x = false := by
  cases hc0 : c0.free with
  | false =>
      simp only [ffTie, hc0, Bool.and_eq_true, beq_iff_eq, decide_eq_true_eq,
        Bool.false_eq_true, if_false] at hx hy
      simp only [ffLess, ← hx.1, ← hy.1, ← hx.2, ← hy.2]
      simp
  | true =>
      simp only [ffTie, hc0, Bool.and_eq_true, beq_iff_eq, if_true] at hx hy
      simp only [ffLess, ← hx.1, ← hy.1]
      have hxr : c0.remaining = x.remaining := by simpa using hx.2
      have hyr : c0.remaining = y.remaining := by simpa using hy.2
      simp [← hxr, ← hyr]

theorem ffLess_false_iff (a b : Candidate) :
    ffLess b a = false ↔
      ((a.free = true ∧ b.free = false) ∨
       (a.free = true ∧ b.free = true ∧ b.remaining ≤ a.remaining) ∨
       (a.free = false ∧ b.free = false ∧ a.BlendedCost ≤ b.BlendedCost)) := by
  cases haf : a.free <;> cases hbf : b.free <;>
    simp only [ffLess, haf, hbf] <;> simp

/-- C8: `FreeFirstPolicy.Select` returns a permutation of its input that
is a stable ordering: in the output no free candidate follows a paid
one, free candidates are in nonincreasing `Remaining` order, paid
candidates in nondecreasing blended-cost order, and candidates that the
comparator ties (same free flag and equal Remaining resp. blended cost)
keep their relative input order; the blended cost is
`(cost_per_input_token + 2 * cost_per_output_token) / 3` when either new
cost field is positive and the legacy `cost_per_token` rate otherwise. -/
theorem C8_free_first_policy :
    (∀ (l : List Candidate), (FreeFirstPolicy.Select l).Perm l) ∧
    (∀ (l : List Candidate), (FreeFirstPolicy.Select l).Pairwise (fun a b =>
      (a.free = true ∧ b.free = false) ∨
      (a.free = true ∧ b.free = true ∧ b.remaining ≤ a.remaining) ∨
      (a.free = false ∧ b.free = false ∧ a.BlendedCost ≤ b.BlendedCost))) ∧
    (∀ (l : List Candidate) (c0 : Candidate),
      (FreeFirstPolicy.Select l).filter (ffTie c0) = l.filter (ffTie c0)) ∧
    (∀ c : Candidate, c.BlendedCost =
      if 0 < c.costPerInputToken ∨ 0 < c.costPerOutputToken then
        (c.costPerInputToken + 2 * c.costPerOutputToken) / 3
      else c.costPerToken) := by
  refine ⟨?_, ?_, ?_, fun c => rfl⟩
  · intro l
    exact sliceStable_perm ffLess l
  · intro l
    have h := sliceStable_pairwise ffLess ffLess_asym ffLess_negtrans l
    exact h.imp (fun hab => (ffLess_false_iff _ _).mp hab)
  · intro l c0
    exact sliceStable_filter ffLess (ffTie c0) (fun x y hx hy => ffTie_less c0 x y hx hy) l

end InferRouter
